import Mathlib

/-!
Verification development for the c3d software renderer.

This file gives a shallow embedding, over exact rational arithmetic, of the
parts of the c3d rendering pipeline that the verified properties concern:
vectors and matrices, the perspective projection, near-plane clipping
(Sutherland-Hodgman), backface culling, Blinn-Phong shading, texture
sampling, the per-pixel color computation of the rasterizer, the
smooth-normal synthesis pass, and the per-frame driver.

C float arithmetic is modelled by the rational numbers; the square root and
power functions (the only transcendental operations the embedded code uses)
are taken as explicit function parameters, so every statement proved below
holds for any realization of them.  A C cast from float to int is modelled
by truncation toward zero.
-/

namespace C3D

/-- Two-component vector (struct vec2_t: two floats x, y). -/
@[ext]
structure vec2 where
  x : ℚ
  y : ℚ
deriving DecidableEq

/-- Three-component vector (struct vec3_t: three floats x, y, z). -/
@[ext]
structure vec3 where
  x : ℚ
  y : ℚ
  z : ℚ
deriving DecidableEq

/-- Four-component vector (struct vec4_t: four floats x, y, z, w). -/
@[ext]
structure vec4 where
  x : ℚ
  y : ℚ
  z : ℚ
  w : ℚ
deriving DecidableEq

/-- Row-major 4x4 matrix (struct mat4_t), with the sixteen entries spelled
out as fields mIJ for row I and column J. -/
@[ext]
structure mat4 where
  m00 : ℚ
  m01 : ℚ
  m02 : ℚ
  m03 : ℚ
  m10 : ℚ
  m11 : ℚ
  m12 : ℚ
  m13 : ℚ
  m20 : ℚ
  m21 : ℚ
  m22 : ℚ
  m23 : ℚ
  m30 : ℚ
  m31 : ℚ
  m32 : ℚ
  m33 : ℚ
deriving DecidableEq

/-- Clip-space vertex record (struct vex_t): clip position, world-space
position, normal and uv. -/
@[ext]
structure vex where
  clip : vec4
  space : vec3
  normal : vec3
  uv : vec2
deriving DecidableEq

/-- Triangle record (struct tri_t): three positions, three uv corners,
three per-corner normals. -/
@[ext]
structure tri where
  vx : vec3
  vy : vec3
  vz : vec3
  uvx : vec2
  uvy : vec2
  uvz : vec2
  nvx : vec3
  nvy : vec3
  nvz : vec3
deriving DecidableEq

/-- Texture record (struct texture_t).  The C data pointer is modelled by an
optional list of RGB samples; a NULL pointer is Option.none. -/
structure texture where
  data : Option (List vec3)
  width : ℕ
  height : ℕ
  channels : ℕ
deriving DecidableEq

/-- Material record (struct material_t); the texture references other than
the diffuse map play no role in the verified properties. -/
structure material where
  ambient_color : vec3
  diffuse_color : vec3
  specular_color : vec3
  shininess : ℚ
  transparency : ℚ
  diffuse_tex : texture
deriving DecidableEq

/-- Point-light record (struct light_t fields used by the shader). -/
structure light where
  position : vec3
  color : vec3
  brightness : ℚ
  radius : ℚ
deriving DecidableEq

/-- The C macro C3D_CLAMP(var, x, y) = (var > y) ? y : ((var < x) ? x : var). -/
def C3D_CLAMP (v lo hi : ℚ) : ℚ :=
  if v > hi then hi else if v < lo then lo else v

/-- Truncation toward zero: the semantics of a C cast from a (nonnegative or
negative) real value to int. -/
def c_trunc (q : ℚ) : ℤ :=
  if q < 0 then -⌊-q⌋ else ⌊q⌋

theorem C3D_CLAMP_mem (v lo hi : ℚ) (h : lo ≤ hi) :
    lo ≤ C3D_CLAMP v lo hi ∧ C3D_CLAMP v lo hi ≤ hi := by
  unfold C3D_CLAMP
  split
  · exact ⟨h, le_refl hi⟩
  · split
    · exact ⟨le_refl lo, h⟩
    · constructor
      · linarith [not_lt.mp (by assumption : ¬ v < lo)]
      · linarith [not_lt.mp (by assumption : ¬ v > hi)]

theorem c_trunc_nonneg {q : ℚ} (h : 0 ≤ q) : 0 ≤ c_trunc q := by
  unfold c_trunc
  rw [if_neg (not_lt.mpr h)]
  exact Int.floor_nonneg.mpr h

theorem c_trunc_le {q : ℚ} {n : ℤ} (h0 : 0 ≤ q) (h : q ≤ (n : ℚ)) :
    c_trunc q ≤ n := by
  unfold c_trunc
  rw [if_neg (not_lt.mpr h0)]
  calc ⌊q⌋ ≤ ⌊(n : ℚ)⌋ := Int.floor_le_floor h
    _ = n := Int.floor_intCast n

/-!
Texture sampling (c3d_texsample).  The flattened sample index is exposed as
its own definition so that the memory-safety statement can speak about it.
In the C source the expression u * (tex->width - 1) subtracts 1 from an
unsigned int; for width at least 1 (the only case the verified properties
concern) that agrees with the rational subtraction used here.
-/

/-- Flattened index tex_y * width + tex_x computed by c3d_texsample after
clamping u and v into the unit interval. -/
def c3d_texindex (tex : texture) (u v : ℚ) : ℤ :=
  let u2 := C3D_CLAMP u 0 1
  let v2 := C3D_CLAMP v 0 1
  let tex_x := c_trunc (u2 * ((tex.width : ℚ) - 1))
  let tex_y := c_trunc ((1 - v2) * ((tex.height : ℚ) - 1))
  tex_y * (tex.width : ℤ) + tex_x

/-- Embedding of c3d_texsample: a texture with an absent data reference
samples as opaque white; otherwise the sample at the clamped, flattened
index is fetched and clamped componentwise into the unit interval. -/
def c3d_texsample (tex : texture) (u v : ℚ) : vec3 :=
  match tex.data with
  | none => ⟨1, 1, 1⟩
  | some data =>
    let index := c3d_texindex tex u v
    let color := data.getD index.toNat ⟨0, 0, 0⟩
    ⟨C3D_CLAMP color.x 0 1, C3D_CLAMP color.y 0 1, C3D_CLAMP color.z 0 1⟩

/-- C9: sampling a texture whose sample-data reference is absent returns
opaque white (1,1,1) for every pair of uv coordinates. -/
theorem C9_absent_texture_samples_white (tex : texture) (h : tex.data = none)
    (u v : ℚ) : c3d_texsample tex u v = ⟨1, 1, 1⟩ := by
  unfold c3d_texsample
  rw [h]

theorem C9_witness :
    c3d_texsample ⟨none, 7, 5, 3⟩ (37/10) (-2/3) = ⟨1, 1, 1⟩ :=
  C9_absent_texture_samples_white ⟨none, 7, 5, 3⟩ rfl (37/10) (-2/3)

/-- C10: texture sampling is memory-safe for arbitrary coordinates: with
data present and width, height at least 1, the clamped u lies in the unit
interval, the flattened sample index lies in the interval from 0 up to
(excluding) width * height, and every component of the returned color lies
in the unit interval. -/
theorem C10_texsample_safe (tex : texture) (dat : List vec3) (u v : ℚ)
    (hd : tex.data = some dat) (hw : 1 ≤ tex.width) (hh : 1 ≤ tex.height) :
    (0 ≤ C3D_CLAMP u 0 1 ∧ C3D_CLAMP u 0 1 ≤ 1) ∧
    (0 ≤ c3d_texindex tex u v ∧
      c3d_texindex tex u v < (tex.width : ℤ) * (tex.height : ℤ)) ∧
    (0 ≤ (c3d_texsample tex u v).x ∧ (c3d_texsample tex u v).x ≤ 1 ∧
     0 ≤ (c3d_texsample tex u v).y ∧ (c3d_texsample tex u v).y ≤ 1 ∧
     0 ≤ (c3d_texsample tex u v).z ∧ (c3d_texsample tex u v).z ≤ 1) := by
  have h01 : (0 : ℚ) ≤ 1 := by norm_num
  have hu := C3D_CLAMP_mem u 0 1 h01
  have hv := C3D_CLAMP_mem v 0 1 h01
  have hwq : (1 : ℚ) ≤ (tex.width : ℚ) := by exact_mod_cast hw
  have hhq : (1 : ℚ) ≤ (tex.height : ℚ) := by exact_mod_cast hh
  -- bounds for tex_x
  have hx0 : 0 ≤ C3D_CLAMP u 0 1 * ((tex.width : ℚ) - 1) :=
    mul_nonneg hu.1 (by linarith)
  have hx1 : C3D_CLAMP u 0 1 * ((tex.width : ℚ) - 1) ≤ ((tex.width - 1 : ℤ) : ℚ) := by
    push_cast
    nlinarith [hu.1, hu.2]
  have htx0 : 0 ≤ c_trunc (C3D_CLAMP u 0 1 * ((tex.width : ℚ) - 1)) :=
    c_trunc_nonneg hx0
  have htx1 : c_trunc (C3D_CLAMP u 0 1 * ((tex.width : ℚ) - 1)) ≤ (tex.width : ℤ) - 1 :=
    c_trunc_le hx0 hx1
  -- bounds for tex_y
  have hy0 : 0 ≤ (1 - C3D_CLAMP v 0 1) * ((tex.height : ℚ) - 1) :=
    mul_nonneg (by linarith [hv.2]) (by linarith)
  have hy1 : (1 - C3D_CLAMP v 0 1) * ((tex.height : ℚ) - 1) ≤ ((tex.height - 1 : ℤ) : ℚ) := by
    push_cast
    nlinarith [hv.1, hv.2]
  have hty0 : 0 ≤ c_trunc ((1 - C3D_CLAMP v 0 1) * ((tex.height : ℚ) - 1)) :=
    c_trunc_nonneg hy0
  have hty1 : c_trunc ((1 - C3D_CLAMP v 0 1) * ((tex.height : ℚ) - 1)) ≤ (tex.height : ℤ) - 1 :=
    c_trunc_le hy0 hy1
  have hidx0 : 0 ≤ c3d_texindex tex u v := by
    unfold c3d_texindex
    have : (0 : ℤ) ≤ c_trunc ((1 - C3D_CLAMP v 0 1) * ((tex.height : ℚ) - 1)) * (tex.width : ℤ) :=
      mul_nonneg hty0 (by exact_mod_cast Nat.zero_le tex.width)
    simp only []
    omega
  have hidx1 : c3d_texindex tex u v < (tex.width : ℤ) * (tex.height : ℤ) := by
    unfold c3d_texindex
    have hwZ : (1 : ℤ) ≤ (tex.width : ℤ) := by exact_mod_cast hw
    have hmul : c_trunc ((1 - C3D_CLAMP v 0 1) * ((tex.height : ℚ) - 1)) * (tex.width : ℤ) ≤
        ((tex.height : ℤ) - 1) * (tex.width : ℤ) :=
      mul_le_mul_of_nonneg_right hty1 (by omega)
    simp only []
    nlinarith
  refine ⟨⟨hu.1, hu.2⟩, ⟨hidx0, hidx1⟩, ?_⟩
  unfold c3d_texsample
  rw [hd]
  simp only []
  set col := dat.getD (c3d_texindex tex u v).toNat ⟨0, 0, 0⟩ with hcol
  have hcx := C3D_CLAMP_mem col.x 0 1 h01
  have hcy := C3D_CLAMP_mem col.y 0 1 h01
  have hcz := C3D_CLAMP_mem col.z 0 1 h01
  exact ⟨hcx.1, hcx.2, hcy.1, hcy.2, hcz.1, hcz.2⟩

theorem C10_witness :
    (⟨some [⟨2, -1, 1/2⟩], 1, 1, 3⟩ : texture).data = some [⟨2, -1, 1/2⟩] ∧
    1 ≤ (⟨some [⟨2, -1, 1/2⟩], 1, 1, 3⟩ : texture).width ∧
    1 ≤ (⟨some [⟨2, -1, 1/2⟩], 1, 1, 3⟩ : texture).height ∧
    (0 ≤ c3d_texindex ⟨some [⟨2, -1, 1/2⟩], 1, 1, 3⟩ (5/2) (-3) ∧
      c3d_texindex ⟨some [⟨2, -1, 1/2⟩], 1, 1, 3⟩ (5/2) (-3) < 1 * 1) :=
  ⟨rfl, le_refl 1, le_refl 1,
    (C10_texsample_safe ⟨some [⟨2, -1, 1/2⟩], 1, 1, 3⟩ [⟨2, -1, 1/2⟩]
      (5/2) (-3) rfl (le_refl 1) (le_refl 1)).2.1⟩

/-!
Linear algebra primitives.  The square root (used only for normalization)
is a function parameter named sq; every theorem below that involves
normalization is proved for an arbitrary sq.
-/

/-- Dot product of 3-vectors (c3d_vec3dot). -/
def c3d_vec3dot (A B : vec3) : ℚ :=
  A.x * B.x + A.y * B.y + A.z * B.z

/-- Cross product of 3-vectors (c3d_vec3cross). -/
def c3d_vec3cross (a b : vec3) : vec3 :=
  ⟨a.y * b.z - a.z * b.y, a.z * b.x - a.x * b.z, a.x * b.y - a.y * b.x⟩

/-- Normalization of a 3-vector (c3d_vec3normalize): divide by the value V
that the C code obtains as sqrt of the sum of squared components, unless
that value is zero.  The square-root evaluation is the parameter sq. -/
def c3d_vec3normalize (sq : ℚ → ℚ) (v : vec3) : vec3 :=
  let V := sq (v.x * v.x + v.y * v.y + v.z * v.z)
  if V ≠ 0 then ⟨v.x / V, v.y / V, v.z / V⟩ else v

/-- Product of a 3-vector (with implicit homogeneous coordinate 1) and a
row-major 4x4 matrix, yielding a 4-vector (c3d_mat4vec4). -/
def c3d_mat4vec4 (A : vec3) (B : mat4) : vec4 :=
  ⟨B.m00 * A.x + B.m01 * A.y + B.m02 * A.z + B.m03,
   B.m10 * A.x + B.m11 * A.y + B.m12 * A.z + B.m13,
   B.m20 * A.x + B.m21 * A.y + B.m22 * A.z + B.m23,
   B.m30 * A.x + B.m31 * A.y + B.m32 * A.z + B.m33⟩

/-- Product of two 4x4 matrices (c3d_mat4mul), with the C loop over entries
written out, entry [i][j] being the dot product of row i of A and column j
of B. -/
def c3d_mat4mul (A B : mat4) : mat4 :=
  ⟨A.m00 * B.m00 + A.m01 * B.m10 + A.m02 * B.m20 + A.m03 * B.m30,
   A.m00 * B.m01 + A.m01 * B.m11 + A.m02 * B.m21 + A.m03 * B.m31,
   A.m00 * B.m02 + A.m01 * B.m12 + A.m02 * B.m22 + A.m03 * B.m32,
   A.m00 * B.m03 + A.m01 * B.m13 + A.m02 * B.m23 + A.m03 * B.m33,
   A.m10 * B.m00 + A.m11 * B.m10 + A.m12 * B.m20 + A.m13 * B.m30,
   A.m10 * B.m01 + A.m11 * B.m11 + A.m12 * B.m21 + A.m13 * B.m31,
   A.m10 * B.m02 + A.m11 * B.m12 + A.m12 * B.m22 + A.m13 * B.m32,
   A.m10 * B.m03 + A.m11 * B.m13 + A.m12 * B.m23 + A.m13 * B.m33,
   A.m20 * B.m00 + A.m21 * B.m10 + A.m22 * B.m20 + A.m23 * B.m30,
   A.m20 * B.m01 + A.m21 * B.m11 + A.m22 * B.m21 + A.m23 * B.m31,
   A.m20 * B.m02 + A.m21 * B.m12 + A.m22 * B.m22 + A.m23 * B.m32,
   A.m20 * B.m03 + A.m21 * B.m13 + A.m22 * B.m23 + A.m23 * B.m33,
   A.m30 * B.m00 + A.m31 * B.m10 + A.m32 * B.m20 + A.m33 * B.m30,
   A.m30 * B.m01 + A.m31 * B.m11 + A.m32 * B.m21 + A.m33 * B.m31,
   A.m30 * B.m02 + A.m31 * B.m12 + A.m32 * B.m22 + A.m33 * B.m32,
   A.m30 * B.m03 + A.m31 * B.m13 + A.m32 * B.m23 + A.m33 * B.m33⟩

/-- Perspective projection matrix (c3d_mat4prj).  In the C source the
scalar f is computed as 1 / tanf(half the field of view in radians); since
the tangent is transcendental, f enters here as a parameter. -/
def c3d_mat4prj (fnear ffar f aspect : ℚ) : mat4 :=
  ⟨f / aspect, 0, 0, 0,
   0, f, 0, 0,
   0, 0, (ffar + fnear) / (fnear - ffar), (2 * ffar * fnear) / (fnear - ffar),
   0, 0, -1, 0⟩

/-!
Backface culling (c3d_backface) and claim C5.
-/

/-- Embedding of c3d_backface: cull a world-space triangle when the dot
product of its edge cross product and the camera-to-triangle vector is
nonnegative. -/
def c3d_backface (t : tri) (pos : vec3) : Bool :=
  let u : vec3 := ⟨t.vy.x - t.vx.x, t.vy.y - t.vx.y, t.vy.z - t.vx.z⟩
  let v : vec3 := ⟨t.vz.x - t.vx.x, t.vz.y - t.vx.y, t.vz.z - t.vx.z⟩
  let n := c3d_vec3cross u v
  let view : vec3 := ⟨t.vx.x - pos.x, t.vx.y - pos.y, t.vx.z - pos.z⟩
  decide (0 ≤ c3d_vec3dot n view)

/-- Reverse-winding counterpart of a triangle: the second and third corners
(with their uv and normal attributes) are exchanged.  This notion is taken
from the claim; the source has no such function. -/
def c3d_trirev (t : tri) : tri :=
  ⟨t.vx, t.vz, t.vy, t.uvx, t.uvz, t.uvy, t.nvx, t.nvz, t.nvy⟩

/-- Normal-times-view dot product that c3d_backface compares against zero,
exposed for the statement of claim C5. -/
def backfaceDot (t : tri) (pos : vec3) : ℚ :=
  c3d_vec3dot
    (c3d_vec3cross
      ⟨t.vy.x - t.vx.x, t.vy.y - t.vx.y, t.vy.z - t.vx.z⟩
      ⟨t.vz.x - t.vx.x, t.vz.y - t.vx.y, t.vz.z - t.vx.z⟩)
    ⟨t.vx.x - pos.x, t.vx.y - pos.y, t.vx.z - pos.z⟩

theorem backface_eq_decide (t : tri) (pos : vec3) :
    c3d_backface t pos = decide (0 ≤ backfaceDot t pos) := rfl

theorem backfaceDot_rev (t : tri) (pos : vec3) :
    backfaceDot (c3d_trirev t) pos = -backfaceDot t pos := by
  unfold backfaceDot c3d_trirev c3d_vec3dot c3d_vec3cross
  ring

/-- C5: the backface test culls exactly when the cross-and-dot expression is
nonnegative, and for a nondegenerate triangle viewed from a camera position
off its plane exactly one of the triangle and its reverse-winding
counterpart is culled. -/
theorem C5_backface_symmetry (t : tri) (pos : vec3)
    (_hn : c3d_vec3cross
      ⟨t.vy.x - t.vx.x, t.vy.y - t.vx.y, t.vy.z - t.vx.z⟩
      ⟨t.vz.x - t.vx.x, t.vz.y - t.vx.y, t.vz.z - t.vx.z⟩ ≠ ⟨0, 0, 0⟩)
    (hp : backfaceDot t pos ≠ 0) :
    (c3d_backface t pos = true ↔ 0 ≤ backfaceDot t pos) ∧
    ((c3d_backface t pos = true ∧ c3d_backface (c3d_trirev t) pos = false) ∨
     (c3d_backface t pos = false ∧ c3d_backface (c3d_trirev t) pos = true)) := by
  constructor
  · rw [backface_eq_decide]
    exact decide_eq_true_iff
  · rcases lt_or_gt_of_ne hp with hneg | hpos
    · right
      constructor
      · rw [backface_eq_decide]
        simp only [decide_eq_false_iff_not, not_le]
        exact hneg
      · rw [backface_eq_decide, backfaceDot_rev]
        simp only [decide_eq_true_eq]
        linarith
    · left
      constructor
      · rw [backface_eq_decide]
        simp only [decide_eq_true_eq]
        linarith
      · rw [backface_eq_decide, backfaceDot_rev]
        simp only [decide_eq_false_iff_not, not_le]
        linarith

theorem C5_witness :
    (c3d_vec3cross ⟨1, 0, 0⟩ ⟨0, 1, 0⟩ ≠ (⟨0, 0, 0⟩ : vec3)) ∧
    (c3d_backface ⟨⟨0, 0, 0⟩, ⟨1, 0, 0⟩, ⟨0, 1, 0⟩,
        ⟨0, 0⟩, ⟨0, 0⟩, ⟨0, 0⟩, ⟨0, 0, 1⟩, ⟨0, 0, 1⟩, ⟨0, 0, 1⟩⟩ ⟨0, 0, 1⟩ = false ∧
      c3d_backface (c3d_trirev ⟨⟨0, 0, 0⟩, ⟨1, 0, 0⟩, ⟨0, 1, 0⟩,
        ⟨0, 0⟩, ⟨0, 0⟩, ⟨0, 0⟩, ⟨0, 0, 1⟩, ⟨0, 0, 1⟩, ⟨0, 0, 1⟩⟩) ⟨0, 0, 1⟩ = true) := by
  have hcross : c3d_vec3cross ⟨1, 0, 0⟩ ⟨0, 1, 0⟩ ≠ (⟨0, 0, 0⟩ : vec3) := by
    simp [c3d_vec3cross, vec3.ext_iff]
  refine ⟨hcross, ?_⟩
  have h := C5_backface_symmetry
    ⟨⟨0, 0, 0⟩, ⟨1, 0, 0⟩, ⟨0, 1, 0⟩,
      ⟨0, 0⟩, ⟨0, 0⟩, ⟨0, 0⟩, ⟨0, 0, 1⟩, ⟨0, 0, 1⟩, ⟨0, 0, 1⟩⟩ ⟨0, 0, 1⟩
    (by norm_num [c3d_vec3cross, vec3.ext_iff])
    (by norm_num [backfaceDot, c3d_vec3dot, c3d_vec3cross])
  rcases h.2 with hcase | hcase
  · exact absurd hcase.1
      (by norm_num [c3d_backface, c3d_vec3dot, c3d_vec3cross])
  · exact hcase

/-!
Clip-space vertex interpolation (c3d_lerp, c3d_nearintersect) and claim C4.
-/

/-- Embedding of c3d_lerp: linear interpolation of every attribute group of
a clip-space vertex record by the parameter t. -/
def c3d_lerp (A B : vex) (t : ℚ) : vex :=
  ⟨⟨A.clip.x + t * (B.clip.x - A.clip.x),
    A.clip.y + t * (B.clip.y - A.clip.y),
    A.clip.z + t * (B.clip.z - A.clip.z),
    A.clip.w + t * (B.clip.w - A.clip.w)⟩,
   ⟨A.space.x + t * (B.space.x - A.space.x),
    A.space.y + t * (B.space.y - A.space.y),
    A.space.z + t * (B.space.z - A.space.z)⟩,
   ⟨A.normal.x + t * (B.normal.x - A.normal.x),
    A.normal.y + t * (B.normal.y - A.normal.y),
    A.normal.z + t * (B.normal.z - A.normal.z)⟩,
   ⟨A.uv.x + t * (B.uv.x - A.uv.x),
    A.uv.y + t * (B.uv.y - A.uv.y)⟩⟩

/-- Embedding of c3d_nearintersect: intersect the segment from A to B with
the near plane z + w = 0 by interpolating at t = Ad / (Ad - Bd). -/
def c3d_nearintersect (A B : vex) : vex :=
  let Ad := A.clip.z + A.clip.w
  let Bd := B.clip.z + B.clip.w
  let t := Ad / (Ad - Bd)
  c3d_lerp A B t

/-- C4: the intersection vertex is the lerp of its two edge endpoints at
parameter t = Ad / (Ad - Bd) in all four attribute groups componentwise,
and (whenever Ad differs from Bd, as is the case for every clipped edge) it
lies exactly on the plane z + w = 0. -/
theorem C4_nearintersect_lerp (A B : vex)
    (h : A.clip.z + A.clip.w ≠ B.clip.z + B.clip.w) :
    c3d_nearintersect A B =
      c3d_lerp A B ((A.clip.z + A.clip.w) /
        ((A.clip.z + A.clip.w) - (B.clip.z + B.clip.w))) ∧
    (∀ t : ℚ,
      (c3d_lerp A B t).clip.x = A.clip.x + t * (B.clip.x - A.clip.x) ∧
      (c3d_lerp A B t).clip.w = A.clip.w + t * (B.clip.w - A.clip.w) ∧
      (c3d_lerp A B t).space.x = A.space.x + t * (B.space.x - A.space.x) ∧
      (c3d_lerp A B t).normal.x = A.normal.x + t * (B.normal.x - A.normal.x) ∧
      (c3d_lerp A B t).uv.x = A.uv.x + t * (B.uv.x - A.uv.x)) ∧
    (c3d_nearintersect A B).clip.z + (c3d_nearintersect A B).clip.w = 0 := by
  refine ⟨rfl, fun t => ⟨rfl, rfl, rfl, rfl, rfl⟩, ?_⟩
  unfold c3d_nearintersect c3d_lerp
  simp only []
  have hd : (A.clip.z + A.clip.w) - (B.clip.z + B.clip.w) ≠ 0 := sub_ne_zero.mpr h
  field_simp
  ring

theorem C4_witness :
    ((⟨⟨0, 0, 1, 1⟩, ⟨0, 0, 0⟩, ⟨0, 0, 0⟩, ⟨0, 0⟩⟩ : vex).clip.z +
        (⟨⟨0, 0, 1, 1⟩, ⟨0, 0, 0⟩, ⟨0, 0, 0⟩, ⟨0, 0⟩⟩ : vex).clip.w ≠
      (⟨⟨0, 0, -2, 0⟩, ⟨1, 1, 1⟩, ⟨0, 1, 0⟩, ⟨1, 0⟩⟩ : vex).clip.z +
        (⟨⟨0, 0, -2, 0⟩, ⟨1, 1, 1⟩, ⟨0, 1, 0⟩, ⟨1, 0⟩⟩ : vex).clip.w) ∧
    (c3d_nearintersect ⟨⟨0, 0, 1, 1⟩, ⟨0, 0, 0⟩, ⟨0, 0, 0⟩, ⟨0, 0⟩⟩
        ⟨⟨0, 0, -2, 0⟩, ⟨1, 1, 1⟩, ⟨0, 1, 0⟩, ⟨1, 0⟩⟩).clip.z +
      (c3d_nearintersect ⟨⟨0, 0, 1, 1⟩, ⟨0, 0, 0⟩, ⟨0, 0, 0⟩, ⟨0, 0⟩⟩
        ⟨⟨0, 0, -2, 0⟩, ⟨1, 1, 1⟩, ⟨0, 1, 0⟩, ⟨1, 0⟩⟩).clip.w = 0 :=
  ⟨by norm_num,
   (C4_nearintersect_lerp ⟨⟨0, 0, 1, 1⟩, ⟨0, 0, 0⟩, ⟨0, 0, 0⟩, ⟨0, 0⟩⟩
     ⟨⟨0, 0, -2, 0⟩, ⟨1, 1, 1⟩, ⟨0, 1, 0⟩, ⟨1, 0⟩⟩ (by norm_num)).2.2⟩

/-!
Sutherland-Hodgman near-plane clipping (c3d_innear, c3d_suthhodgman,
c3d_nearclip).  The C clipping routine walks the edges of the input polygon;
the only polygon it is ever applied to is a triangle (inCount is always 3),
so the embedding spells out the three edge passes.  The three successive
independent if statements of the C loop body are mutually exclusive and are
rendered as one nested conditional.
-/

/-- Embedding of c3d_innear: a vertex is inside the near half-space iff
z + w is nonnegative. -/
def c3d_innear (v : vex) : Bool :=
  decide (v.clip.z + v.clip.w ≥ 0)

/-- Output of one edge pass (current, next) of the Sutherland-Hodgman loop
body in c3d_suthhodgman. -/
def clipEdge (cur nxt : vex) : List vex :=
  if c3d_innear cur then
    if c3d_innear nxt then [nxt]
    else [c3d_nearintersect cur nxt]
  else
    if c3d_innear nxt then [c3d_nearintersect cur nxt, nxt]
    else []

/-- Embedding of c3d_suthhodgman for a triangle input: the concatenated
outputs of the three edge passes (a,b), (b,c), (c,a). -/
def c3d_suthhodgman (a b c : vex) : List vex :=
  clipEdge a b ++ clipEdge b c ++ clipEdge c a

/-- Clip-space vertex record built by c3d_nearclip for one input corner:
the clip position is the corner transformed by the camera matrix, and the
world position, normal and uv are carried along. -/
def c3d_clipvex (M : mat4) (p n : vec3) (uv : vec2) : vex :=
  ⟨c3d_mat4vec4 p M, p, n, uv⟩

/-- Triangle assembled by c3d_nearclip from three output vertices. -/
def c3d_trifromvex (o0 o1 o2 : vex) : tri :=
  ⟨o0.space, o1.space, o2.space, o0.uv, o1.uv, o2.uv,
   o0.normal, o1.normal, o2.normal⟩

/-- First, second and third clip-space input records of c3d_nearclip. -/
def c3d_nearclip_in0 (t : tri) (M : mat4) : vex := c3d_clipvex M t.vx t.nvx t.uvx

/-- Second clip-space input record of c3d_nearclip. -/
def c3d_nearclip_in1 (t : tri) (M : mat4) : vex := c3d_clipvex M t.vy t.nvy t.uvy

/-- Third clip-space input record of c3d_nearclip. -/
def c3d_nearclip_in2 (t : tri) (M : mat4) : vex := c3d_clipvex M t.vz t.nvz t.uvz

/-- Embedding of c3d_nearclip: clip one triangle against the near plane and
return zero, one or two world-space triangles, fan-triangulating a
four-vertex output as (0,1,2), (0,2,3). -/
def c3d_nearclip (t : tri) (M : mat4) : List tri :=
  match c3d_suthhodgman (c3d_nearclip_in0 t M) (c3d_nearclip_in1 t M)
      (c3d_nearclip_in2 t M) with
  | [o0, o1, o2] => [c3d_trifromvex o0 o1 o2]
  | [o0, o1, o2, o3] => [c3d_trifromvex o0 o1 o2, c3d_trifromvex o0 o2 o3]
  | _ => []

/-- View-projection matrix as assembled in c3d_update: the projection matrix
times the camera view matrix. -/
def c3d_matcam (fnear ffar f aspect : ℚ) (camview : mat4) : mat4 :=
  c3d_mat4mul (c3d_mat4prj fnear ffar f aspect) camview

/-- Consistency of a clip-space vertex record: its clip position is its
world position transformed by the camera matrix.  The records entering the
clipper have this shape by construction, and linear interpolation preserves
it because the transform is affine in the world position. -/
def consistent (M : mat4) (v : vex) : Prop :=
  v.clip = c3d_mat4vec4 v.space M

theorem innear_iff (v : vex) :
    c3d_innear v = true ↔ 0 ≤ v.clip.z + v.clip.w := by
  unfold c3d_innear
  rw [decide_eq_true_iff]

theorem consistent_lerp {M : mat4} {A B : vex} (hA : consistent M A)
    (hB : consistent M B) (t : ℚ) : consistent M (c3d_lerp A B t) := by
  unfold consistent at hA hB ⊢
  apply vec4.ext
  all_goals simp only [c3d_lerp, hA, hB, c3d_mat4vec4]
  all_goals ring

theorem nearintersect_on_plane {A B : vex}
    (h : A.clip.z + A.clip.w ≠ B.clip.z + B.clip.w) :
    (c3d_nearintersect A B).clip.z + (c3d_nearintersect A B).clip.w = 0 := by
  unfold c3d_nearintersect c3d_lerp
  simp only []
  have hd : (A.clip.z + A.clip.w) - (B.clip.z + B.clip.w) ≠ 0 := sub_ne_zero.mpr h
  field_simp
  ring

theorem clipEdge_mem {M : mat4} {cur nxt v : vex} (hc : consistent M cur)
    (hn : consistent M nxt) (hv : v ∈ clipEdge cur nxt) :
    consistent M v ∧ 0 ≤ v.clip.z + v.clip.w := by
  unfold clipEdge at hv
  by_cases h1 : c3d_innear cur = true
  · by_cases h2 : c3d_innear nxt = true
    · rw [if_pos h1, if_pos h2] at hv
      rw [List.mem_singleton] at hv
      rw [hv]
      exact ⟨hn, (innear_iff nxt).mp h2⟩
    · rw [if_pos h1, if_neg h2] at hv
      rw [List.mem_singleton] at hv
      rw [hv]
      have hcur : 0 ≤ cur.clip.z + cur.clip.w := (innear_iff cur).mp h1
      have hnxt : nxt.clip.z + nxt.clip.w < 0 := by
        by_contra hcon
        exact h2 ((innear_iff nxt).mpr (not_lt.mp hcon))
      have hne : cur.clip.z + cur.clip.w ≠ nxt.clip.z + nxt.clip.w := by linarith
      refine ⟨consistent_lerp hc hn _, ?_⟩
      rw [nearintersect_on_plane hne]
  · by_cases h2 : c3d_innear nxt = true
    · rw [if_neg h1, if_pos h2] at hv
      rcases List.mem_cons.mp hv with hv2 | hv2
      · rw [hv2]
        have hcur : cur.clip.z + cur.clip.w < 0 := by
          by_contra hcon
          exact h1 ((innear_iff cur).mpr (not_lt.mp hcon))
        have hnxt : 0 ≤ nxt.clip.z + nxt.clip.w := (innear_iff nxt).mp h2
        have hne : cur.clip.z + cur.clip.w ≠ nxt.clip.z + nxt.clip.w := by linarith
        refine ⟨consistent_lerp hc hn _, ?_⟩
        rw [nearintersect_on_plane hne]
      · rw [List.mem_singleton] at hv2
        rw [hv2]
        exact ⟨hn, (innear_iff nxt).mp h2⟩
    · rw [if_neg h1, if_neg h2] at hv
      exact absurd hv (List.not_mem_nil v)

theorem suthhodgman_mem {M : mat4} {a b c v : vex} (ha : consistent M a)
    (hb : consistent M b) (hc : consistent M c)
    (hv : v ∈ c3d_suthhodgman a b c) :
    consistent M v ∧ 0 ≤ v.clip.z + v.clip.w := by
  unfold c3d_suthhodgman at hv
  rcases List.mem_append.mp hv with hv1 | hv1
  · rcases List.mem_append.mp hv1 with hv2 | hv2
    · exact clipEdge_mem ha hb hv2
    · exact clipEdge_mem hb hc hv2
  · exact clipEdge_mem hc ha hv1

theorem matcam_w_ge_near {fnear ffar f aspect : ℚ} {V : mat4}
    (h0 : 0 < fnear) (h1 : fnear < ffar)
    (hV : V.m30 = 0 ∧ V.m31 = 0 ∧ V.m32 = 0 ∧ V.m33 = 1) (p : vec3)
    (h : 0 ≤ (c3d_mat4vec4 p (c3d_matcam fnear ffar f aspect V)).z +
        (c3d_mat4vec4 p (c3d_matcam fnear ffar f aspect V)).w) :
    fnear ≤ (c3d_mat4vec4 p (c3d_matcam fnear ffar f aspect V)).w := by
  obtain ⟨h30, h31, h32, h33⟩ := hV
  have hw : (c3d_mat4vec4 p (c3d_matcam fnear ffar f aspect V)).w =
      -(V.m20 * p.x + V.m21 * p.y + V.m22 * p.z + V.m23) := by
    simp only [c3d_matcam, c3d_mat4mul, c3d_mat4prj, c3d_mat4vec4]
    rw [h30, h31, h32, h33]
    ring
  have hz : (c3d_mat4vec4 p (c3d_matcam fnear ffar f aspect V)).z =
      ((ffar + fnear) / (fnear - ffar)) *
        (V.m20 * p.x + V.m21 * p.y + V.m22 * p.z + V.m23) +
      (2 * ffar * fnear) / (fnear - ffar) := by
    simp only [c3d_matcam, c3d_mat4mul, c3d_mat4prj, c3d_mat4vec4]
    rw [h30, h31, h32, h33]
    ring
  rw [hz, hw] at h
  rw [hw]
  set zc := V.m20 * p.x + V.m21 * p.y + V.m22 * p.z + V.m23 with hzc
  have hd : fnear - ffar < 0 := by linarith
  have hdne : fnear - ffar ≠ 0 := ne_of_lt hd
  have key : ((ffar + fnear) / (fnear - ffar)) * zc +
      (2 * ffar * fnear) / (fnear - ffar) + -zc =
      (2 * ffar / (fnear - ffar)) * (zc + fnear) := by
    field_simp
    ring
  rw [key] at h
  have hcoef : 2 * ffar / (fnear - ffar) < 0 :=
    div_neg_of_pos_of_neg (by linarith) hd
  by_contra hcon
  push_neg at hcon
  have hzpos : 0 < zc + fnear := by linarith
  have hneg : (2 * ffar / (fnear - ffar)) * (zc + fnear) < 0 :=
    mul_neg_of_neg_of_pos hcoef hzpos
  linarith

theorem nearclip_corner_mem {t : tri} {M : mat4} {t2 : tri}
    (ht : t2 ∈ c3d_nearclip t M) (p : vec3)
    (hp : p = t2.vx ∨ p = t2.vy ∨ p = t2.vz) :
    ∃ v, v ∈ c3d_suthhodgman (c3d_nearclip_in0 t M) (c3d_nearclip_in1 t M)
        (c3d_nearclip_in2 t M) ∧ p = v.space := by
  unfold c3d_nearclip at ht
  rcases hout : c3d_suthhodgman (c3d_nearclip_in0 t M) (c3d_nearclip_in1 t M)
      (c3d_nearclip_in2 t M) with _ | ⟨o0, _ | ⟨o1, _ | ⟨o2, _ | ⟨o3, _ | _⟩⟩⟩⟩
  all_goals rw [hout] at ht
  · simp at ht
  · simp at ht
  · simp at ht
  · rw [List.mem_singleton] at ht
    subst ht
    rcases hp with hp | hp | hp
    · exact ⟨o0, by simp, hp⟩
    · exact ⟨o1, by simp, hp⟩
    · exact ⟨o2, by simp, hp⟩
  · rcases List.mem_cons.mp ht with ht2 | ht2
    · subst ht2
      rcases hp with hp | hp | hp
      · exact ⟨o0, by simp, hp⟩
      · exact ⟨o1, by simp, hp⟩
      · exact ⟨o2, by simp, hp⟩
    · rw [List.mem_singleton] at ht2
      subst ht2
      rcases hp with hp | hp | hp
      · exact ⟨o0, by simp, hp⟩
      · exact ⟨o2, by simp, hp⟩
      · exact ⟨o3, by simp, hp⟩
  · simp at ht

/-- C2: with a strictly positive near plane (and the documented camera
invariant near < far), every triangle surviving near-plane clipping has,
at all three corners, a re-projected clip-space w that is at least near and
in particular strictly positive; this is because every vertex kept or
created by the clipper satisfies z + w nonnegative, which under the given
projection matrix forces w at least near. -/
theorem C2_clipped_w_positive (fnear ffar f aspect : ℚ) (V : mat4)
    (h0 : 0 < fnear) (h1 : fnear < ffar)
    (hV : V.m30 = 0 ∧ V.m31 = 0 ∧ V.m32 = 0 ∧ V.m33 = 1)
    (t t2 : tri) (ht : t2 ∈ c3d_nearclip t (c3d_matcam fnear ffar f aspect V))
    (p : vec3) (hp : p = t2.vx ∨ p = t2.vy ∨ p = t2.vz) :
    fnear ≤ (c3d_mat4vec4 p (c3d_matcam fnear ffar f aspect V)).w ∧
    0 < (c3d_mat4vec4 p (c3d_matcam fnear ffar f aspect V)).w := by
  obtain ⟨v, hvmem, hps⟩ := nearclip_corner_mem ht p hp
  have hc0 : consistent (c3d_matcam fnear ffar f aspect V)
      (c3d_nearclip_in0 t (c3d_matcam fnear ffar f aspect V)) := rfl
  have hc1 : consistent (c3d_matcam fnear ffar f aspect V)
      (c3d_nearclip_in1 t (c3d_matcam fnear ffar f aspect V)) := rfl
  have hc2 : consistent (c3d_matcam fnear ffar f aspect V)
      (c3d_nearclip_in2 t (c3d_matcam fnear ffar f aspect V)) := rfl
  have hmem := suthhodgman_mem hc0 hc1 hc2 hvmem
  have hzw : 0 ≤ (c3d_mat4vec4 p (c3d_matcam fnear ffar f aspect V)).z +
      (c3d_mat4vec4 p (c3d_matcam fnear ffar f aspect V)).w := by
    rw [hps, ← hmem.1]
    exact hmem.2
  have hge := matcam_w_ge_near h0 h1 hV p hzw
  exact ⟨hge, lt_of_lt_of_le h0 hge⟩

theorem nearclip_all_inside {t : tri} {M : mat4}
    (h0 : c3d_innear (c3d_nearclip_in0 t M) = true)
    (h1 : c3d_innear (c3d_nearclip_in1 t M) = true)
    (h2 : c3d_innear (c3d_nearclip_in2 t M) = true) :
    c3d_nearclip t M =
      [⟨t.vy, t.vz, t.vx, t.uvy, t.uvz, t.uvx, t.nvy, t.nvz, t.nvx⟩] := by
  have hout : c3d_suthhodgman (c3d_nearclip_in0 t M) (c3d_nearclip_in1 t M)
      (c3d_nearclip_in2 t M) =
      [c3d_nearclip_in1 t M, c3d_nearclip_in2 t M, c3d_nearclip_in0 t M] := by
    simp [c3d_suthhodgman, clipEdge, h0, h1, h2]
  unfold c3d_nearclip
  rw [hout]
  rfl

theorem nearclip_all_outside {t : tri} {M : mat4}
    (h0 : c3d_innear (c3d_nearclip_in0 t M) = false)
    (h1 : c3d_innear (c3d_nearclip_in1 t M) = false)
    (h2 : c3d_innear (c3d_nearclip_in2 t M) = false) :
    c3d_nearclip t M = [] := by
  have hout : c3d_suthhodgman (c3d_nearclip_in0 t M) (c3d_nearclip_in1 t M)
      (c3d_nearclip_in2 t M) = [] := by
    simp [c3d_suthhodgman, clipEdge, h0, h1, h2]
  unfold c3d_nearclip
  rw [hout]

theorem C2_witness :
    1 ≤ (c3d_mat4vec4 ⟨1, 0, -5⟩
        (c3d_matcam 1 10 1 1 ⟨1,0,0,0, 0,1,0,0, 0,0,1,0, 0,0,0,1⟩)).w ∧
    0 < (c3d_mat4vec4 ⟨1, 0, -5⟩
        (c3d_matcam 1 10 1 1 ⟨1,0,0,0, 0,1,0,0, 0,0,1,0, 0,0,0,1⟩)).w := by
  have hin0 : c3d_innear (c3d_nearclip_in0
      ⟨⟨0, 0, -5⟩, ⟨1, 0, -5⟩, ⟨0, 1, -5⟩, ⟨0, 0⟩, ⟨1, 0⟩, ⟨0, 1⟩,
        ⟨0, 0, 1⟩, ⟨0, 0, 1⟩, ⟨0, 0, 1⟩⟩
      (c3d_matcam 1 10 1 1 ⟨1,0,0,0, 0,1,0,0, 0,0,1,0, 0,0,0,1⟩)) = true := by
    norm_num [c3d_innear, c3d_nearclip_in0, c3d_clipvex, c3d_mat4vec4,
      c3d_matcam, c3d_mat4mul, c3d_mat4prj]
  have hin1 : c3d_innear (c3d_nearclip_in1
      ⟨⟨0, 0, -5⟩, ⟨1, 0, -5⟩, ⟨0, 1, -5⟩, ⟨0, 0⟩, ⟨1, 0⟩, ⟨0, 1⟩,
        ⟨0, 0, 1⟩, ⟨0, 0, 1⟩, ⟨0, 0, 1⟩⟩
      (c3d_matcam 1 10 1 1 ⟨1,0,0,0, 0,1,0,0, 0,0,1,0, 0,0,0,1⟩)) = true := by
    norm_num [c3d_innear, c3d_nearclip_in1, c3d_clipvex, c3d_mat4vec4,
      c3d_matcam, c3d_mat4mul, c3d_mat4prj]
  have hin2 : c3d_innear (c3d_nearclip_in2
      ⟨⟨0, 0, -5⟩, ⟨1, 0, -5⟩, ⟨0, 1, -5⟩, ⟨0, 0⟩, ⟨1, 0⟩, ⟨0, 1⟩,
        ⟨0, 0, 1⟩, ⟨0, 0, 1⟩, ⟨0, 0, 1⟩⟩
      (c3d_matcam 1 10 1 1 ⟨1,0,0,0, 0,1,0,0, 0,0,1,0, 0,0,0,1⟩)) = true := by
    norm_num [c3d_innear, c3d_nearclip_in2, c3d_clipvex, c3d_mat4vec4,
      c3d_matcam, c3d_mat4mul, c3d_mat4prj]
  have hlist := nearclip_all_inside hin0 hin1 hin2
  have hmem : (⟨⟨1, 0, -5⟩, ⟨0, 1, -5⟩, ⟨0, 0, -5⟩, ⟨1, 0⟩, ⟨0, 1⟩, ⟨0, 0⟩,
      ⟨0, 0, 1⟩, ⟨0, 0, 1⟩, ⟨0, 0, 1⟩⟩ : tri) ∈ c3d_nearclip
      ⟨⟨0, 0, -5⟩, ⟨1, 0, -5⟩, ⟨0, 1, -5⟩, ⟨0, 0⟩, ⟨1, 0⟩, ⟨0, 1⟩,
        ⟨0, 0, 1⟩, ⟨0, 0, 1⟩, ⟨0, 0, 1⟩⟩
      (c3d_matcam 1 10 1 1 ⟨1,0,0,0, 0,1,0,0, 0,0,1,0, 0,0,0,1⟩) := by
    rw [hlist]
    exact List.mem_singleton.mpr rfl
  exact C2_clipped_w_positive 1 10 1 1 ⟨1,0,0,0, 0,1,0,0, 0,0,1,0, 0,0,0,1⟩
    (by norm_num) (by norm_num) ⟨rfl, rfl, rfl, rfl⟩
    ⟨⟨0, 0, -5⟩, ⟨1, 0, -5⟩, ⟨0, 1, -5⟩, ⟨0, 0⟩, ⟨1, 0⟩, ⟨0, 1⟩,
      ⟨0, 0, 1⟩, ⟨0, 0, 1⟩, ⟨0, 0, 1⟩⟩
    ⟨⟨1, 0, -5⟩, ⟨0, 1, -5⟩, ⟨0, 0, -5⟩, ⟨1, 0⟩, ⟨0, 1⟩, ⟨0, 0⟩,
      ⟨0, 0, 1⟩, ⟨0, 0, 1⟩, ⟨0, 0, 1⟩⟩ hmem ⟨1, 0, -5⟩ (Or.inl rfl)

/-- C3 (amended): clipping a triangle against the near plane yields a
polygon of exactly 0, 3 or 4 vertices; a triangle with all three corners
inside the near half-space yields exactly that triangle with its corners
cyclically rotated one place (the record lists corners vy, vz, vx with the
matching uv and normal attributes), and a triangle with all three corners
outside yields zero triangles. -/
theorem C3_suthhodgman_triangle (M : mat4) (t : tri) :
    ((c3d_suthhodgman (c3d_nearclip_in0 t M) (c3d_nearclip_in1 t M)
        (c3d_nearclip_in2 t M)).length = 0 ∨
     (c3d_suthhodgman (c3d_nearclip_in0 t M) (c3d_nearclip_in1 t M)
        (c3d_nearclip_in2 t M)).length = 3 ∨
     (c3d_suthhodgman (c3d_nearclip_in0 t M) (c3d_nearclip_in1 t M)
        (c3d_nearclip_in2 t M)).length = 4) ∧
    ((c3d_innear (c3d_nearclip_in0 t M) = true ∧
      c3d_innear (c3d_nearclip_in1 t M) = true ∧
      c3d_innear (c3d_nearclip_in2 t M) = true) →
      c3d_nearclip t M =
        [⟨t.vy, t.vz, t.vx, t.uvy, t.uvz, t.uvx, t.nvy, t.nvz, t.nvx⟩]) ∧
    ((c3d_innear (c3d_nearclip_in0 t M) = false ∧
      c3d_innear (c3d_nearclip_in1 t M) = false ∧
      c3d_innear (c3d_nearclip_in2 t M) = false) →
      c3d_nearclip t M = []) := by
  refine ⟨?_, fun h => nearclip_all_inside h.1 h.2.1 h.2.2,
    fun h => nearclip_all_outside h.1 h.2.1 h.2.2⟩
  cases h0 : c3d_innear (c3d_nearclip_in0 t M) <;>
    cases h1 : c3d_innear (c3d_nearclip_in1 t M) <;>
      cases h2 : c3d_innear (c3d_nearclip_in2 t M) <;>
        simp [c3d_suthhodgman, clipEdge, h0, h1, h2]

theorem C3_counterexample :
    (c3d_innear (c3d_nearclip_in0
        ⟨⟨0, 0, 0⟩, ⟨1, 0, 0⟩, ⟨0, 1, 0⟩, ⟨0, 0⟩, ⟨1, 0⟩, ⟨0, 1⟩,
          ⟨0, 0, 1⟩, ⟨0, 0, 1⟩, ⟨0, 0, 1⟩⟩
        ⟨0,0,0,0, 0,0,0,0, 0,0,0,1, 0,0,0,1⟩) = true ∧
     c3d_innear (c3d_nearclip_in1
        ⟨⟨0, 0, 0⟩, ⟨1, 0, 0⟩, ⟨0, 1, 0⟩, ⟨0, 0⟩, ⟨1, 0⟩, ⟨0, 1⟩,
          ⟨0, 0, 1⟩, ⟨0, 0, 1⟩, ⟨0, 0, 1⟩⟩
        ⟨0,0,0,0, 0,0,0,0, 0,0,0,1, 0,0,0,1⟩) = true ∧
     c3d_innear (c3d_nearclip_in2
        ⟨⟨0, 0, 0⟩, ⟨1, 0, 0⟩, ⟨0, 1, 0⟩, ⟨0, 0⟩, ⟨1, 0⟩, ⟨0, 1⟩,
          ⟨0, 0, 1⟩, ⟨0, 0, 1⟩, ⟨0, 0, 1⟩⟩
        ⟨0,0,0,0, 0,0,0,0, 0,0,0,1, 0,0,0,1⟩) = true) ∧
    c3d_nearclip
      ⟨⟨0, 0, 0⟩, ⟨1, 0, 0⟩, ⟨0, 1, 0⟩, ⟨0, 0⟩, ⟨1, 0⟩, ⟨0, 1⟩,
        ⟨0, 0, 1⟩, ⟨0, 0, 1⟩, ⟨0, 0, 1⟩⟩
      ⟨0,0,0,0, 0,0,0,0, 0,0,0,1, 0,0,0,1⟩ ≠
    [⟨⟨0, 0, 0⟩, ⟨1, 0, 0⟩, ⟨0, 1, 0⟩, ⟨0, 0⟩, ⟨1, 0⟩, ⟨0, 1⟩,
      ⟨0, 0, 1⟩, ⟨0, 0, 1⟩, ⟨0, 0, 1⟩⟩] := by
  have hin0 : c3d_innear (c3d_nearclip_in0
      ⟨⟨0, 0, 0⟩, ⟨1, 0, 0⟩, ⟨0, 1, 0⟩, ⟨0, 0⟩, ⟨1, 0⟩, ⟨0, 1⟩,
        ⟨0, 0, 1⟩, ⟨0, 0, 1⟩, ⟨0, 0, 1⟩⟩
      ⟨0,0,0,0, 0,0,0,0, 0,0,0,1, 0,0,0,1⟩) = true := by
    norm_num [c3d_innear, c3d_nearclip_in0, c3d_clipvex, c3d_mat4vec4]
  have hin1 : c3d_innear (c3d_nearclip_in1
      ⟨⟨0, 0, 0⟩, ⟨1, 0, 0⟩, ⟨0, 1, 0⟩, ⟨0, 0⟩, ⟨1, 0⟩, ⟨0, 1⟩,
        ⟨0, 0, 1⟩, ⟨0, 0, 1⟩, ⟨0, 0, 1⟩⟩
      ⟨0,0,0,0, 0,0,0,0, 0,0,0,1, 0,0,0,1⟩) = true := by
    norm_num [c3d_innear, c3d_nearclip_in1, c3d_clipvex, c3d_mat4vec4]
  have hin2 : c3d_innear (c3d_nearclip_in2
      ⟨⟨0, 0, 0⟩, ⟨1, 0, 0⟩, ⟨0, 1, 0⟩, ⟨0, 0⟩, ⟨1, 0⟩, ⟨0, 1⟩,
        ⟨0, 0, 1⟩, ⟨0, 0, 1⟩, ⟨0, 0, 1⟩⟩
      ⟨0,0,0,0, 0,0,0,0, 0,0,0,1, 0,0,0,1⟩) = true := by
    norm_num [c3d_innear, c3d_nearclip_in2, c3d_clipvex, c3d_mat4vec4]
  refine ⟨⟨hin0, hin1, hin2⟩, ?_⟩
  rw [nearclip_all_inside hin0 hin1 hin2]
  intro hcon
  injection hcon with hhead htail
  have hx := congrArg (fun tr => tri.vx tr) hhead
  simp only [] at hx
  have hxx := congrArg (fun w => vec3.x w) hx
  simp only [] at hxx
  exact absurd hxx (by norm_num)

theorem C3_witness :
    c3d_nearclip
      ⟨⟨0, 0, 0⟩, ⟨1, 0, 0⟩, ⟨0, 1, 0⟩, ⟨0, 0⟩, ⟨1, 0⟩, ⟨0, 1⟩,
        ⟨0, 0, 1⟩, ⟨0, 0, 1⟩, ⟨0, 0, 1⟩⟩
      ⟨0,0,0,0, 0,0,0,0, 0,0,0,1, 0,0,0,1⟩ =
      [⟨⟨1, 0, 0⟩, ⟨0, 1, 0⟩, ⟨0, 0, 0⟩, ⟨1, 0⟩, ⟨0, 1⟩, ⟨0, 0⟩,
        ⟨0, 0, 1⟩, ⟨0, 0, 1⟩, ⟨0, 0, 1⟩⟩] ∧
    c3d_nearclip
      ⟨⟨0, 0, 0⟩, ⟨1, 0, 0⟩, ⟨0, 1, 0⟩, ⟨0, 0⟩, ⟨1, 0⟩, ⟨0, 1⟩,
        ⟨0, 0, 1⟩, ⟨0, 0, 1⟩, ⟨0, 0, 1⟩⟩
      ⟨0,0,0,0, 0,0,0,0, 0,0,0,-1, 0,0,0,0⟩ = [] := by
  constructor
  · exact (C3_suthhodgman_triangle ⟨0,0,0,0, 0,0,0,0, 0,0,0,1, 0,0,0,1⟩
      ⟨⟨0, 0, 0⟩, ⟨1, 0, 0⟩, ⟨0, 1, 0⟩, ⟨0, 0⟩, ⟨1, 0⟩, ⟨0, 1⟩,
        ⟨0, 0, 1⟩, ⟨0, 0, 1⟩, ⟨0, 0, 1⟩⟩).2.1
      ⟨by norm_num [c3d_innear, c3d_nearclip_in0, c3d_clipvex, c3d_mat4vec4],
       by norm_num [c3d_innear, c3d_nearclip_in1, c3d_clipvex, c3d_mat4vec4],
       by norm_num [c3d_innear, c3d_nearclip_in2, c3d_clipvex, c3d_mat4vec4]⟩
  · exact (C3_suthhodgman_triangle ⟨0,0,0,0, 0,0,0,0, 0,0,0,-1, 0,0,0,0⟩
      ⟨⟨0, 0, 0⟩, ⟨1, 0, 0⟩, ⟨0, 1, 0⟩, ⟨0, 0⟩, ⟨1, 0⟩, ⟨0, 1⟩,
        ⟨0, 0, 1⟩, ⟨0, 0, 1⟩, ⟨0, 0, 1⟩⟩).2.2
      ⟨by norm_num [c3d_innear, c3d_nearclip_in0, c3d_clipvex, c3d_mat4vec4],
       by norm_num [c3d_innear, c3d_nearclip_in1, c3d_clipvex, c3d_mat4vec4],
       by norm_num [c3d_innear, c3d_nearclip_in2, c3d_clipvex, c3d_mat4vec4]⟩

/-!
Blinn-Phong shading (c3d_bphongshade) and claim C1.  The shader walks the
light list accumulating diffuse and specular contributions; the loop body is
embedded as its own function returning the pair of increments one light
contributes.
-/

/-- Per-light loop body of c3d_bphongshade.  Returns the pair (diffuse
increment, specular increment) that one light contributes to the
accumulators, the zero pair when the light is skipped (NdotL not positive,
or distance beyond the light radius).  The square-root and power functions
are the parameters sq and pw. -/
def c3d_shadelight (sq : ℚ → ℚ) (pw : ℚ → ℚ → ℚ) (campos : vec3)
    (normal space : vec3) (mtl : material) (L : light) : vec3 × vec3 :=
  let toLight : vec3 :=
    ⟨L.position.x - space.x, L.position.y - space.y, L.position.z - space.z⟩
  let dist0 := sq (toLight.x * toLight.x + toLight.y * toLight.y +
    toLight.z * toLight.z)
  let dist := if dist0 ≤ 1/10000 then 1/10000 else dist0
  let toLightN := c3d_vec3normalize sq toLight
  let NdotL := max 0 (c3d_vec3dot normal toLightN)
  if NdotL > 0 then
    if dist > L.radius then (⟨0, 0, 0⟩, ⟨0, 0, 0⟩)
    else
      let attenuation := 1 / (1 + (dist / L.radius) * (dist / L.radius))
      let viewDir := c3d_vec3normalize sq
        ⟨campos.x - space.x, campos.y - space.y, campos.z - space.z⟩
      let halfDir := c3d_vec3normalize sq
        ⟨viewDir.x + toLightN.x, viewDir.y + toLightN.y, viewDir.z + toLightN.z⟩
      let NdotH := max 0 (c3d_vec3dot normal halfDir)
      let specular_factor := pw NdotH mtl.shininess
      (⟨mtl.diffuse_color.x * L.color.x * L.brightness,
        mtl.diffuse_color.y * L.color.y * L.brightness,
        mtl.diffuse_color.z * L.color.z * L.brightness⟩,
       ⟨mtl.specular_color.x * L.color.x * L.brightness * specular_factor * attenuation,
        mtl.specular_color.y * L.color.y * L.brightness * specular_factor * attenuation,
        mtl.specular_color.z * L.color.z * L.brightness * specular_factor * attenuation⟩)
  else (⟨0, 0, 0⟩, ⟨0, 0, 0⟩)

/-- Embedding of c3d_bphongshade: ambient is the material ambient color,
diffuse and specular are accumulated over the light list by the per-light
body, and all three outputs are clamped componentwise into the unit
interval at the end. -/
def c3d_bphongshade (sq : ℚ → ℚ) (pw : ℚ → ℚ → ℚ) (campos : vec3)
    (lights : List light) (normal space : vec3) (mtl : material) :
    vec3 × vec3 × vec3 :=
  let acc := lights.foldl
    (fun (a : vec3 × vec3) L =>
      let c := c3d_shadelight sq pw campos normal space mtl L
      (⟨a.1.x + c.1.x, a.1.y + c.1.y, a.1.z + c.1.z⟩,
       ⟨a.2.x + c.2.x, a.2.y + c.2.y, a.2.z + c.2.z⟩))
    (⟨0, 0, 0⟩, ⟨0, 0, 0⟩)
  (⟨C3D_CLAMP mtl.ambient_color.x 0 1, C3D_CLAMP mtl.ambient_color.y 0 1,
    C3D_CLAMP mtl.ambient_color.z 0 1⟩,
   ⟨C3D_CLAMP acc.1.x 0 1, C3D_CLAMP acc.1.y 0 1, C3D_CLAMP acc.1.z 0 1⟩,
   ⟨C3D_CLAMP acc.2.x 0 1, C3D_CLAMP acc.2.y 0 1, C3D_CLAMP acc.2.z 0 1⟩)

/-- Square-root realization used for the concrete shading evaluation: it is
exact on the three radicands that arise there (0, 1 and 25). -/
def sqLut (q : ℚ) : ℚ :=
  if q = 25 then 5 else if q = 1 then 1 else 0

/-- Power-function realization used for the concrete shading evaluation;
any function works since the diffuse term does not involve it. -/
def pwLut (b e : ℚ) : ℚ :=
  if b = 0 then 0 else if e = 0 then 1 else 1/2

/-- C1: evaluation of the per-light Blinn-Phong body at a concrete input
exhibiting the divergence from the claim: the light is within its radius
and NdotL equals 4/5, yet the diffuse increment is Kd times light color
times brightness = (1,1,1) and not the (4/5,4/5,4/5) that the claimed
additional NdotL factor would give (the code computes NdotL but uses it
only as a gate); the specular increment does carry the power factor and
the attenuation a = 1/(1+(dist/radius)^2) = 4/5 exactly as claimed. -/
theorem C1_diffuse_drops_ndotl :
    max 0 (c3d_vec3dot ⟨0, 0, 1⟩ (c3d_vec3normalize sqLut ⟨3, 0, 4⟩)) = 4/5 ∧
    (c3d_shadelight sqLut pwLut ⟨0, 0, 0⟩ ⟨0, 0, 1⟩ ⟨0, 0, 0⟩
      ⟨⟨0, 0, 0⟩, ⟨1, 1, 1⟩, ⟨1, 1, 1⟩, 32, 1, ⟨none, 0, 0, 0⟩⟩
      ⟨⟨3, 0, 4⟩, ⟨1, 1, 1⟩, 1, 10⟩).1 = ⟨1, 1, 1⟩ ∧
    (c3d_shadelight sqLut pwLut ⟨0, 0, 0⟩ ⟨0, 0, 1⟩ ⟨0, 0, 0⟩
      ⟨⟨0, 0, 0⟩, ⟨1, 1, 1⟩, ⟨1, 1, 1⟩, 32, 1, ⟨none, 0, 0, 0⟩⟩
      ⟨⟨3, 0, 4⟩, ⟨1, 1, 1⟩, 1, 10⟩).1 ≠
      ⟨1 * 1 * 1 * (4/5), 1 * 1 * 1 * (4/5), 1 * 1 * 1 * (4/5)⟩ ∧
    (c3d_shadelight sqLut pwLut ⟨0, 0, 0⟩ ⟨0, 0, 1⟩ ⟨0, 0, 0⟩
      ⟨⟨0, 0, 0⟩, ⟨1, 1, 1⟩, ⟨1, 1, 1⟩, 32, 1, ⟨none, 0, 0, 0⟩⟩
      ⟨⟨3, 0, 4⟩, ⟨1, 1, 1⟩, 1, 10⟩).2 =
      ⟨1 * 1 * 1 * (pwLut (4/5) 32) * (4/5), 1 * 1 * 1 * (pwLut (4/5) 32) * (4/5),
       1 * 1 * 1 * (pwLut (4/5) 32) * (4/5)⟩ := by
  have hnorm : c3d_vec3normalize sqLut ⟨3, 0, 4⟩ = ⟨3/5, 0, 4/5⟩ := by
    norm_num [c3d_vec3normalize, sqLut]
  have hNdotL : max 0 (c3d_vec3dot ⟨0, 0, 1⟩ (c3d_vec3normalize sqLut ⟨3, 0, 4⟩)) = 4/5 := by
    rw [hnorm]
    norm_num [c3d_vec3dot]
  refine ⟨hNdotL, ?_⟩
  have hview : c3d_vec3normalize sqLut ⟨(0 : ℚ) - 0, (0 : ℚ) - 0, (0 : ℚ) - 0⟩ =
      ⟨0, 0, 0⟩ := by
    norm_num [c3d_vec3normalize, sqLut]
  have heval : c3d_shadelight sqLut pwLut ⟨0, 0, 0⟩ ⟨0, 0, 1⟩ ⟨0, 0, 0⟩
      ⟨⟨0, 0, 0⟩, ⟨1, 1, 1⟩, ⟨1, 1, 1⟩, 32, 1, ⟨none, 0, 0, 0⟩⟩
      ⟨⟨3, 0, 4⟩, ⟨1, 1, 1⟩, 1, 10⟩ =
      (⟨1, 1, 1⟩, ⟨1 * 1 * 1 * (pwLut (4/5) 32) * (4/5),
        1 * 1 * 1 * (pwLut (4/5) 32) * (4/5),
        1 * 1 * 1 * (pwLut (4/5) 32) * (4/5)⟩) := by
    norm_num [c3d_shadelight, c3d_vec3normalize, c3d_vec3dot, sqLut, pwLut,
      max_def]
  rw [heval]
  refine ⟨rfl, ?_, rfl⟩
  intro hcon
  have hx := congrArg (fun w => vec3.x w) hcon
  norm_num at hx

/-!
Per-pixel color combination of c3d_rasterize (the body of the depth-passing
branch) and claim C6.
-/

/-- Per-pixel color computation of c3d_rasterize: final_color is ambient
plus diffuse, componentwise times the sampled texture color, plus specular;
it is then mixed against the display background color by the material
transparency, clamped componentwise to the unit interval, and each channel
is converted to an 8-bit value by the C int cast of channel * 255. -/
def c3d_rasterize_color (bg : vec3) (transparency : ℚ)
    (ambient diffuse specular tex_color : vec3) : ℤ × ℤ × ℤ :=
  let f0 : vec3 :=
    ⟨(ambient.x + diffuse.x) * tex_color.x + specular.x,
     (ambient.y + diffuse.y) * tex_color.y + specular.y,
     (ambient.z + diffuse.z) * tex_color.z + specular.z⟩
  let f1 : vec3 :=
    ⟨(1 - transparency) * bg.x + transparency * f0.x,
     (1 - transparency) * bg.y + transparency * f0.y,
     (1 - transparency) * bg.z + transparency * f0.z⟩
  let f2 : vec3 :=
    ⟨C3D_CLAMP f1.x 0 1, C3D_CLAMP f1.y 0 1, C3D_CLAMP f1.z 0 1⟩
  (c_trunc (f2.x * 255), c_trunc (f2.y * 255), c_trunc (f2.z * 255))

/-- Modelled from the spec: the 8-bit conversion RGB8 = round(c * 255)
stated in the final-color paragraph.  Kept only for comparison against the
truncating conversion the source performs. -/
def spec_rgb8 (c : ℚ) : ℤ := round (c * 255)

theorem c_trunc_floor_close {m : ℚ} (h0 : 0 ≤ m) :
    c_trunc (m * 255) = ⌊m * 255⌋ ∧ |((⌊m * 255⌋ : ℚ)) / 255 - m| ≤ 1/255 := by
  have hnn : 0 ≤ m * 255 := by positivity
  constructor
  · unfold c_trunc
    rw [if_neg (not_lt.mpr hnn)]
  · rw [abs_le]
    have hle := Int.floor_le (m * 255)
    have hlt := Int.lt_floor_add_one (m * 255)
    constructor
    · linarith
    · linarith

/-- C6 (amended): the emitted channel is the floor (truncation, not
rounding) of 255 times the clamped transparency mix of the background and
the combined shaded color; consequently each emitted channel over 255 is
within 1/255 of the clamped mixed value, which with transparency 1/2 is
the claimed half-background half-shaded color whenever that mix lies in the
unit interval. -/
theorem C6_pixel_color (bg : vec3) (d : ℚ) (ambient diffuse specular tex_color : vec3) :
    ((c3d_rasterize_color bg d ambient diffuse specular tex_color).1 =
      ⌊C3D_CLAMP ((1 - d) * bg.x + d * ((ambient.x + diffuse.x) * tex_color.x + specular.x)) 0 1 * 255⌋ ∧
     (c3d_rasterize_color bg d ambient diffuse specular tex_color).2.1 =
      ⌊C3D_CLAMP ((1 - d) * bg.y + d * ((ambient.y + diffuse.y) * tex_color.y + specular.y)) 0 1 * 255⌋ ∧
     (c3d_rasterize_color bg d ambient diffuse specular tex_color).2.2 =
      ⌊C3D_CLAMP ((1 - d) * bg.z + d * ((ambient.z + diffuse.z) * tex_color.z + specular.z)) 0 1 * 255⌋) ∧
    (|(((c3d_rasterize_color bg d ambient diffuse specular tex_color).1 : ℚ)) / 255 -
      C3D_CLAMP ((1 - d) * bg.x + d * ((ambient.x + diffuse.x) * tex_color.x + specular.x)) 0 1| ≤ 1/255 ∧
     |(((c3d_rasterize_color bg d ambient diffuse specular tex_color).2.1 : ℚ)) / 255 -
      C3D_CLAMP ((1 - d) * bg.y + d * ((ambient.y + diffuse.y) * tex_color.y + specular.y)) 0 1| ≤ 1/255 ∧
     |(((c3d_rasterize_color bg d ambient diffuse specular tex_color).2.2 : ℚ)) / 255 -
      C3D_CLAMP ((1 - d) * bg.z + d * ((ambient.z + diffuse.z) * tex_color.z + specular.z)) 0 1| ≤ 1/255) := by
  have h01 : (0 : ℚ) ≤ 1 := by norm_num
  have hx := C3D_CLAMP_mem ((1 - d) * bg.x + d * ((ambient.x + diffuse.x) * tex_color.x + specular.x)) 0 1 h01
  have hy := C3D_CLAMP_mem ((1 - d) * bg.y + d * ((ambient.y + diffuse.y) * tex_color.y + specular.y)) 0 1 h01
  have hz := C3D_CLAMP_mem ((1 - d) * bg.z + d * ((ambient.z + diffuse.z) * tex_color.z + specular.z)) 0 1 h01
  have hcx := c_trunc_floor_close hx.1
  have hcy := c_trunc_floor_close hy.1
  have hcz := c_trunc_floor_close hz.1
  refine ⟨⟨?_, ?_, ?_⟩, ?_, ?_, ?_⟩
  · exact hcx.1
  · exact hcy.1
  · exact hcz.1
  · show |((c_trunc _ : ℤ) : ℚ) / 255 - _| ≤ 1/255
    rw [hcx.1]
    exact hcx.2
  · show |((c_trunc _ : ℤ) : ℚ) / 255 - _| ≤ 1/255
    rw [hcy.1]
    exact hcy.2
  · show |((c_trunc _ : ℤ) : ℚ) / 255 - _| ≤ 1/255
    rw [hcz.1]
    exact hcz.2

theorem C6_counterexample :
    (c3d_rasterize_color ⟨0, 0, 0⟩ 1 ⟨13/25, 0, 0⟩ ⟨0, 0, 0⟩ ⟨0, 0, 0⟩
      ⟨1, 1, 1⟩).1 = 132 ∧
    spec_rgb8 (C3D_CLAMP ((1 - 1) * 0 + 1 * ((13/25 + 0) * 1 + 0)) 0 1) = 133 := by
  constructor
  · show c_trunc (C3D_CLAMP ((1 - 1) * (0:ℚ) + 1 * ((13/25 + 0) * 1 + 0)) 0 1 * 255) = 132
    norm_num [C3D_CLAMP, c_trunc]
  · norm_num [spec_rgb8, C3D_CLAMP, round_eq]

/-!
Smooth-normal synthesis (c3d_vecnormalavg) and claim C7.  The pass is
embedded as a function on the triangle list: the corner positions are
collected, deduplicated with a per-component tolerance, the normalized
face normals are accumulated into the unique-position buckets, averaged,
renormalized, and written back into every corner.  The whole computation of
the new normals depends only on the corner positions.
-/

/-- Tolerance test of the unique-position search: each component of the
difference has absolute value below 1e-6. -/
def posMatch (u v : vec3) : Bool :=
  decide (|u.x - v.x| < 1/1000000 ∧ |u.y - v.y| < 1/1000000 ∧
    |u.z - v.z| < 1/1000000)

/-- One step of the unique-position scan: find the first unique position
matching the corner within tolerance; append the corner as a new unique
position when there is none.  Returns the updated unique list and the
bucket index assigned to this corner (map_unique entry). -/
def uniqStep (uniq : List vec3) (v : vec3) : List vec3 × ℕ :=
  match uniq.findIdx? (fun u => posMatch u v) with
  | some j => (uniq, j)
  | none => (uniq ++ [v], uniq.length)

/-- The unique-position scan over the corner position list, producing the
unique position list and the per-corner bucket map. -/
def uniqScan (ps : List vec3) : List vec3 × List ℕ :=
  ps.foldl
    (fun (acc : List vec3 × List ℕ) v =>
      let s := uniqStep acc.1 v
      (s.1, acc.2 ++ [s.2]))
    ([], [])

/-- Normalized face normal of a triangle: the cross product of its two
edges from the first corner, normalized. -/
def faceNormal (sq : ℚ → ℚ) (p0 p1 p2 : vec3) : vec3 :=
  c3d_vec3normalize sq (c3d_vec3cross
    ⟨p1.x - p0.x, p1.y - p0.y, p1.z - p0.z⟩
    ⟨p2.x - p0.x, p2.y - p0.y, p2.z - p0.z⟩)

/-- Pointwise update adding a face normal into one bucket of the sum table. -/
def addNormal (sums : ℕ → vec3) (j : ℕ) (n : vec3) : ℕ → vec3 :=
  fun k => if k = j then
    ⟨(sums j).x + n.x, (sums j).y + n.y, (sums j).z + n.z⟩
  else sums k

/-- Pointwise increment of one bucket count. -/
def bump (cnt : ℕ → ℕ) (j : ℕ) : ℕ → ℕ :=
  fun k => if k = j then cnt j + 1 else cnt k

/-- Accumulation loop over the triangles: each triangle adds its normalized
face normal to the buckets of its three corners and increments the three
counts (a corner hitting the same bucket twice counts twice, as in the
source). -/
def accumNormals (sq : ℚ → ℚ) (pts : List (vec3 × vec3 × vec3))
    (m : List ℕ) : (ℕ → vec3) × (ℕ → ℕ) :=
  pts.enum.foldl
    (fun acc ip =>
      let fn := faceNormal sq ip.2.1 ip.2.2.1 ip.2.2.2
      let j0 := m.getD (3 * ip.1) 0
      let j1 := m.getD (3 * ip.1 + 1) 0
      let j2 := m.getD (3 * ip.1 + 2) 0
      (addNormal (addNormal (addNormal acc.1 j0 fn) j1 fn) j2 fn,
       bump (bump (bump acc.2 j0) j1) j2))
    (fun _ => ⟨0, 0, 0⟩, fun _ => 0)

/-- Averaged, renormalized bucket normal: buckets with a positive count are
divided by the count and normalized; others keep their (zero) sum. -/
def avgNormal (sq : ℚ → ℚ) (sums : ℕ → vec3) (cnt : ℕ → ℕ) (j : ℕ) : vec3 :=
  if cnt j > 0 then
    c3d_vec3normalize sq
      ⟨(sums j).x / (cnt j : ℚ), (sums j).y / (cnt j : ℚ),
       (sums j).z / (cnt j : ℚ)⟩
  else sums j

/-- New per-corner normals of the smooth-normal pass, computed from the
corner positions alone: one triple of normals per triangle. -/
def smoothNormals (sq : ℚ → ℚ) (pts : List (vec3 × vec3 × vec3)) :
    List (vec3 × vec3 × vec3) :=
  let ps := pts.flatMap (fun tr => [tr.1, tr.2.1, tr.2.2])
  let m := (uniqScan ps).2
  let acc := accumNormals sq pts m
  pts.enum.map
    (fun ip =>
      (avgNormal sq acc.1 acc.2 (m.getD (3 * ip.1) 0),
       avgNormal sq acc.1 acc.2 (m.getD (3 * ip.1 + 1) 0),
       avgNormal sq acc.1 acc.2 (m.getD (3 * ip.1 + 2) 0)))

/-- Corner position triple of a triangle. -/
def posTriple (t : tri) : vec3 × vec3 × vec3 := (t.vx, t.vy, t.vz)

/-- Write a triple of normals into the three corners of a triangle,
leaving positions and uv coordinates untouched. -/
def setNormals (t : tri) (n : vec3 × vec3 × vec3) : tri :=
  ⟨t.vx, t.vy, t.vz, t.uvx, t.uvy, t.uvz, n.1, n.2.1, n.2.2⟩

/-- Embedding of c3d_vecnormalavg: replace every corner normal of the mesh
by the averaged smooth normal of its position bucket. -/
def c3d_vecnormalavg (sq : ℚ → ℚ) (m : List tri) : List tri :=
  List.zipWith setNormals m (smoothNormals sq (m.map posTriple))

theorem posTriple_setNormals (t : tri) (n : vec3 × vec3 × vec3) :
    posTriple (setNormals t n) = posTriple t := rfl

theorem smoothNormals_length (sq : ℚ → ℚ) (pts : List (vec3 × vec3 × vec3)) :
    (smoothNormals sq pts).length = pts.length := by
  unfold smoothNormals
  simp

theorem map_posTriple_zipWith (m : List tri) (ns : List (vec3 × vec3 × vec3))
    (h : m.length ≤ ns.length) :
    (List.zipWith setNormals m ns).map posTriple = m.map posTriple := by
  induction m generalizing ns with
  | nil => simp
  | cons t ts ih =>
    cases ns with
    | nil => simp at h
    | cons n ns2 =>
      simp only [List.zipWith_cons_cons, List.map_cons, posTriple_setNormals]
      rw [ih ns2 (by simpa using h)]

theorem zipWith_setNormals_twice (m : List tri) (ns : List (vec3 × vec3 × vec3)) :
    List.zipWith setNormals (List.zipWith setNormals m ns) ns =
    List.zipWith setNormals m ns := by
  induction m generalizing ns with
  | nil => simp
  | cons t ts ih =>
    cases ns with
    | nil => simp
    | cons n ns2 =>
      simp only [List.zipWith_cons_cons]
      rw [ih ns2]
      rfl

/-- C7: the smooth-normal synthesis pass is idempotent: running it a second
time on the output of the first run returns the first output unchanged (in
particular the same per-corner normals), for every mesh and every
realization of the square-root function, because the pass reads only the
corner positions, never modifies them, and overwrites all normals. -/
theorem C7_vecnormalavg_idempotent (sq : ℚ → ℚ) (m : List tri) :
    c3d_vecnormalavg sq (c3d_vecnormalavg sq m) = c3d_vecnormalavg sq m := by
  unfold c3d_vecnormalavg
  have hlen : m.length ≤ (smoothNormals sq (m.map posTriple)).length := by
    rw [smoothNormals_length]
    simp
  rw [map_posTriple_zipWith m (smoothNormals sq (m.map posTriple)) hlen]
  exact zipWith_setNormals_twice m (smoothNormals sq (m.map posTriple))

/-!
Per-frame driver (c3d_update) and claim C8.  Only the control flow the
claim concerns is represented: walking the behavior list and firing the
eligible callbacks, incrementing the frame counter, and handing the frame
to the composer after the increment.  The rendering work in between touches
neither the counter nor the behavior list.
-/

/-- Behavior type tag (enum behavior_type_t). -/
inductive behavior_type where
  | CONTINUOUS : behavior_type
  | STARTUP : behavior_type
deriving DecidableEq

/-- Behavior record (struct behavior_t): the function pointer is modelled
only by whether it is non-NULL; its identity and arguments play no role in
the verified property. -/
structure behavior where
  hasFunc : Bool
  type : behavior_type
deriving DecidableEq

/-- Display state touched by the per-frame driver: the frame counter and
the attached behavior list. -/
structure display where
  frame_count : ℕ
  behaviors : List behavior
deriving DecidableEq

/-- Firing condition of one behavior at entry frame count fc, as in the
switch of c3d_update: the function pointer must be non-NULL; a CONTINUOUS
behavior always fires, a STARTUP behavior fires only when the frame counter
is zero. -/
def behaviorRuns (fc : ℕ) (b : behavior) : Bool :=
  b.hasFunc &&
    (match b.type with
     | behavior_type.CONTINUOUS => true
     | behavior_type.STARTUP => fc == 0)

/-- Result of one c3d_update call: the updated display, the indexed list of
behaviors whose callbacks were invoked (in list order), and the value of
the frame counter at the moment the frame is handed to the composer
(c3d_render runs after the increment). -/
structure updateResult where
  state : display
  executed : List (ℕ × behavior)
  composedAt : ℕ
deriving DecidableEq

/-- Embedding of the driver control flow of c3d_update. -/
def c3d_update (d : display) : updateResult :=
  ⟨⟨d.frame_count + 1, d.behaviors⟩,
   d.behaviors.enum.filter (fun p => behaviorRuns d.frame_count p.2),
   d.frame_count + 1⟩

/-- C8: in every c3d_update call an attached callback runs iff its function
pointer is present and it is CONTINUOUS, or STARTUP with the entry frame
count zero; the frame counter is incremented by exactly one, and the frame
is handed to the composer after the increment; consequently a second update
never fires a STARTUP callback. -/
theorem C8_update_behaviors (d : display) :
    (∀ p, p ∈ d.behaviors.enum →
      (p ∈ (c3d_update d).executed ↔
        (p.2.hasFunc = true ∧ (p.2.type = behavior_type.CONTINUOUS ∨
          (p.2.type = behavior_type.STARTUP ∧ d.frame_count = 0))))) ∧
    (c3d_update d).state.frame_count = d.frame_count + 1 ∧
    (c3d_update d).composedAt = d.frame_count + 1 ∧
    (∀ p, p ∈ (c3d_update (c3d_update d).state).executed →
      p.2.type ≠ behavior_type.STARTUP) := by
  refine ⟨?_, rfl, rfl, ?_⟩
  · intro p hp
    unfold c3d_update
    rw [List.mem_filter]
    cases htype : p.2.type <;>
      simp [behaviorRuns, htype, hp]
  · intro p hp
    unfold c3d_update at hp
    rw [List.mem_filter] at hp
    have hruns := hp.2
    cases htype : p.2.type with
    | CONTINUOUS => simp [htype]
    | STARTUP =>
      rw [behaviorRuns, htype] at hruns
      simp at hruns

theorem C8_witness :
    ((0, (⟨true, behavior_type.STARTUP⟩ : behavior)) ∈
      (c3d_update ⟨0, [⟨true, behavior_type.STARTUP⟩,
        ⟨true, behavior_type.CONTINUOUS⟩]⟩).executed) ∧
    (c3d_update ⟨0, [⟨true, behavior_type.STARTUP⟩,
      ⟨true, behavior_type.CONTINUOUS⟩]⟩).composedAt = 1 :=
  ⟨((C8_update_behaviors ⟨0, [⟨true, behavior_type.STARTUP⟩,
      ⟨true, behavior_type.CONTINUOUS⟩]⟩).1
      (0, ⟨true, behavior_type.STARTUP⟩) (by decide)).mpr
      ⟨rfl, Or.inr ⟨rfl, rfl⟩⟩,
   (C8_update_behaviors ⟨0, [⟨true, behavior_type.STARTUP⟩,
      ⟨true, behavior_type.CONTINUOUS⟩]⟩).2.2.1⟩

end C3D
